import Mathlib

/-!
Verification of the core game logic of a Simon memory-sequence game
(single Arduino sketch).  The embedding models the pure logic of the
sketch: sequence generation and extension, the level replay comparison,
difficulty selection, playback timing, the game-cycle level loop, and the
polling-based button-await functions.  Hardware effects (LEDs, LCD, tone)
are modelled as event traces; randomness is modelled by threading explicit
raw entropy values through the Arduino `random(lo, hi)` primitive.
-/

namespace Simon

/-! ### Core constants (from the sketch header) -/

/-- `const int NUM_LEDS = 4;` -/
def NUM_LEDS : Int := 4

/-- `const int BUTTON_ANALOG_VALS[NUM_LEDS] = { 512, 682, 767, 818 };` -/
def BUTTON_ANALOG_VALS : List Int := [512, 682, 767, 818]

/-- `const int TONES[NUM_LEDS] = { 330, 277, 440, 165 };` -/
def TONES : List Int := [330, 277, 440, 165]

/-- `const int GAME_START_FLASHES = 3;` -/
def GAME_START_FLASHES : Nat := 3

/-- `const int GAME_OVER_FLASHES = 4;` -/
def GAME_OVER_FLASHES : Nat := 4

/-- `const int GAME_START_TONES[GAME_START_FLASHES] = { 440, 440, 660 };` -/
def GAME_START_TONES : List Int := [440, 440, 660]

/-- `const int GAME_OVER_TONES[GAME_OVER_FLASHES] = { 117, 110, 104, 98 };` -/
def GAME_OVER_TONES : List Int := [117, 110, 104, 98]

/-- `const int GAME_SPEEDS[3] = {1, 5, 10};` -/
def GAME_SPEEDS : List Int := [1, 5, 10]

/-! ### Randomness model

Arduino `random(lo, hi)` returns a uniform value in `[lo, hi)`.  We model
one draw as a function of an explicit raw entropy value: the draw is
`lo` plus the raw value reduced modulo the width of the interval. -/

/-- Arduino `random(lo, hi)`: a value in `[lo, hi)`, from raw entropy. -/
def arduinoRandom (lo hi : Int) (raw : Nat) : Int :=
  lo + ((raw % (hi - lo).toNat : Nat) : Int)

/-! ### Array utility: `find` -/

/-- Helper for `find`: scan the rest of the array, `i` being the index of
its head in the original array. -/
def findFrom (searchFor : Int) : List Int → Nat → Int
  | [], _ => -1
  | x :: rest, i => if x = searchFor then (i : Int) else findFrom searchFor rest (i + 1)

/-- `find(array, length, searchFor)`: index of the first occurrence of
`searchFor` in the array, `-1` if absent.  The `length` parameter of the C
function is the length of the embedded list (every caller passes the
actual array length). -/
def find (array : List Int) (searchFor : Int) : Int :=
  findFrom searchFor array 0

/-- `getButtonPressed()`: decode one analog sample into the index of the
button pressed, `-1` if none matches. -/
def getButtonPressed (buttonInput : Int) : Int :=
  find BUTTON_ANALOG_VALS buttonInput

/-! ### Game state

The sketch keeps the round state in the globals `sequence` (heap array)
and `sequenceLen`.  We keep both separately, exactly as the sketch does:
the list is the allocated buffer, `sequenceLen` the count the loops use. -/

/-- The global round state: `int* sequence; int sequenceLen;`. -/
structure SimonState where
  sequence : List Int
  sequenceLen : Nat
deriving DecidableEq, Repr

/-! ### Sequence functions -/

/-- `generateSequence(length, numLEDs)`: a fresh array of `length` cells,
cell `i` filled with `random(0, numLEDs)` (entropy stream `raws`). -/
def generateSequence (length : Nat) (numLEDs : Int) (raws : Nat → Nat) : List Int :=
  (List.range length).map (fun i => arduinoRandom 0 numLEDs (raws i))

/-- `extendSequence(num)`: allocate a buffer of `sequenceLen + 1` cells,
copy `sequence[0..sequenceLen-1]` into it, write `num` at index
`sequenceLen`, then replace the sequence and increment `sequenceLen`. -/
def extendSequence (s : SimonState) (num : Int) : SimonState :=
  let newSequence :=
    (List.range s.sequenceLen).map (fun i => s.sequence.getD i 0) ++ [num]
  { sequence := newSequence, sequenceLen := s.sequenceLen + 1 }

/-- `playSequence(onTime, delayTime)`: the trace of flashes it emits, one
`(led, onTime, delayTime)` event per index `i < sequenceLen`, in order. -/
def playSequence (s : SimonState) (onTime delayTime : Int) : List (Int × Int × Int) :=
  (List.range s.sequenceLen).map (fun i => (s.sequence.getD i 0, onTime, delayTime))

/-! ### Playback timing (the argument expressions of `playSequence` in
`playLevel`: `playSequence(1150 - speed * 100, 230 - speed * 20)`) -/

/-- On-duration of one flash during level playback: `1150 - speed * 100`. -/
def levelOnTime (speed : Int) : Int := 1150 - speed * 100

/-- Gap between flashes during level playback: `230 - speed * 20`. -/
def levelGapTime (speed : Int) : Int := 230 - speed * 20

/-! ### Level replay (the input-checking loop of `playLevel`) -/

/-- The replay loop of `playLevel`:
`for (i = 0; i < sequenceLen; i++) { input = awaitButtonInput(...);
if (input != sequence[i]) return false; } return true;`.
`inputs k` is the gesture returned by the `k`-th call of
`awaitButtonInput` (calls are numbered from 0).  Returns the boolean
result together with the number of gestures consumed. -/
def replayLoop (sequence : List Int) (sequenceLen : Nat) (inputs : Nat → Int)
    (i : Nat) : Bool × Nat :=
  if h : i < sequenceLen then
    if inputs i ≠ sequence.getD i 0 then (false, i + 1)
    else replayLoop sequence sequenceLen inputs (i + 1)
  else (true, i)
termination_by sequenceLen - i

/-- The replay phase of `playLevel`, started at index 0. -/
def playLevelReplay (s : SimonState) (inputs : Nat → Int) : Bool × Nat :=
  replayLoop s.sequence s.sequenceLen inputs 0

/-! ### Difficulty selection -/

/-- `selectDifficulty()`: the speed committed for the round, given the
button the gesture used and raw entropy for the auto branch.
`if (buttonPressed == 3) speed = random(1, 11); else speed = GAME_SPEEDS[buttonPressed];` -/
def selectDifficulty (buttonPressed : Nat) (raw : Nat) : Int :=
  if buttonPressed = 3 then arduinoRandom 1 11 raw
  else GAME_SPEEDS.getD buttonPressed 0

/-! ### LED light shows and game-over screen -/

/-- `LEDLightShow(tones, tonesLength)`: the trace of flash tones, one per
flash, `tones[i]` for `i < tonesLength`. -/
def LEDLightShow (tones : List Int) (tonesLength : Nat) : List Int :=
  (List.range tonesLength).map (fun i => tones.getD i 0)

/-- `endGame()`: the game-over flourish followed by the reveal playback
`playSequence(1000, 250)`.  The round speed is in scope (a global in the
sketch) but unused by `endGame`; we pass it to state that explicitly. -/
def endGame (s : SimonState) (speed : Int) : List Int × List (Int × Int × Int) :=
  (fun _ => (LEDLightShow GAME_OVER_TONES GAME_OVER_FLASHES, playSequence s 1000 250)) speed

/-! ### The game-cycle level loop (`playGame`)

`while (true) { if (!playLevel()) break; extendSequence(random(0, NUM_LEDS)); }`
`completes k` abstracts the boolean result of `playLevel` at level `k`
(it is a function of the player input stream); `raws k` is the entropy of
the `random(0, NUM_LEDS)` draw after level `k` completes. -/

/-- State of the round before level `k` (levels numbered from 0): the
initial state extended once per completed level. -/
def stateAfterLevels (init : SimonState) (raws : Nat → Nat) : Nat → SimonState
  | 0 => init
  | k + 1 => extendSequence (stateAfterLevels init raws k) (arduinoRandom 0 NUM_LEDS (raws k))

/-- The state the level loop exits with: the loop breaks at the first
level whose `playLevel` returns false, without extending the sequence. -/
def gameLoopFinal (init : SimonState) (raws : Nat → Nat) (completes : Nat → Bool)
    (hfail : ∃ k, completes k = false) : SimonState :=
  stateAfterLevels init raws (Nat.find hfail)

/-! ### Button-await functions

Time is discretised by polls: `poll t` is the value `getButtonPressed()`
returns at its `t`-th call (the sketch separates consecutive polls by a
10 ms delay).  The awaits are unbounded searches; termination needs the
player eventually to act, which enters as an explicit hypothesis. -/

/-- `awaitButtonRelease()` entered with its first poll at tick `t`:
the tick of the first poll reading `-1`. -/
def awaitButtonRelease (poll : Nat → Int) (t : Nat)
    (h : ∃ d, poll (t + d) = -1) : Nat :=
  t + Nat.find h

/-- `awaitButtonPress()` entered with its first poll at tick `t`:
the tick of the first poll reading a button (not `-1`). -/
def awaitButtonPress (poll : Nat → Int) (t : Nat)
    (h : ∃ d, poll (t + d) ≠ -1) : Nat :=
  t + Nat.find h

/-- The tick from which `awaitButtonInput`, invoked with its initial
check polling at tick `t0`, starts looking for a press: right after the
initial check if no button was held, else right after the held button is
seen released. -/
def armTime (poll : Nat → Int) (t0 : Nat)
    (hrel : ∀ t, ∃ d, poll (t + d) = -1) : Nat :=
  if poll t0 = -1 then t0 + 1
  else awaitButtonRelease poll (t0 + 1) (hrel (t0 + 1)) + 1

/-- The tick of the press `awaitButtonInput` detects (the poll whose
value it returns, and at which `onPress` fires). -/
def pressTime (poll : Nat → Int) (t0 : Nat)
    (hrel : ∀ t, ∃ d, poll (t + d) = -1)
    (hpress : ∀ t, ∃ d, poll (t + d) ≠ -1) : Nat :=
  awaitButtonPress poll (armTime poll t0 hrel) (hpress (armTime poll t0 hrel))

/-- `awaitButtonInput(onPress, onRelease)`: the button it returns.  The
trailing `awaitButtonRelease` only delays the return; the returned value
is the one read at the detected press. -/
def awaitButtonInput (poll : Nat → Int) (t0 : Nat)
    (hrel : ∀ t, ∃ d, poll (t + d) = -1)
    (hpress : ∀ t, ∃ d, poll (t + d) ≠ -1) : Int :=
  poll (pressTime poll t0 hrel hpress)

/-! ### Concrete streams used to exercise the model -/

/-- A concrete poll stream: a button (index 2) reads as held on even
ticks and released on odd ticks. -/
def pollW : Nat → Int := fun t => if t % 2 = 0 then 2 else -1

/-- A concrete gesture stream: agrees with the sequence `[0, 1, 2]` on
the first two gestures and deviates on the third. -/
def inputsW : Nat → Int := fun k => if k < 2 then [0, 1, 2].getD k 0 else 9

/-! ### Helper lemmas -/

/-- Reading a list cell by cell over its whole index range reproduces it. -/
theorem range_map_getD (l : List Int) :
    (List.range l.length).map (fun i => l.getD i 0) = l := by
  induction l with
  | nil => rfl
  | cons x rest ih =>
    rw [List.length_cons, List.range_succ_eq_map, List.map_cons, List.map_map]
    have hfun : ((fun i => (x :: rest).getD i 0) ∘ Nat.succ) = fun i => rest.getD i 0 := by
      funext i
      simp
    rw [List.getD_cons_zero, hfun, ih]

/-- `random(lo, hi)` lands in `[lo, hi)` whenever the interval is nonempty. -/
theorem arduinoRandom_bounds (lo hi : Int) (raw : Nat) (h : lo < hi) :
    lo ≤ arduinoRandom lo hi raw ∧ arduinoRandom lo hi raw < hi := by
  have h1 : 0 < (hi - lo).toNat := by omega
  have h2 : raw % (hi - lo).toNat < (hi - lo).toNat := Nat.mod_lt _ h1
  unfold arduinoRandom
  omega

/-- `findFrom` returns `-1` or an index inside the scanned range. -/
theorem findFrom_cases (searchFor : Int) (l : List Int) (i : Nat) :
    findFrom searchFor l i = -1 ∨
      ((i : Int) ≤ findFrom searchFor l i ∧
        findFrom searchFor l i < ((i + l.length : Nat) : Int)) := by
  induction l generalizing i with
  | nil => left; rfl
  | cons x rest ih =>
    by_cases hx : x = searchFor
    · right
      simp only [findFrom, hx, if_true]
      refine ⟨le_refl _, ?_⟩
      simp only [List.length_cons]
      push_cast
      omega
    · have h := ih (i + 1)
      simp only [findFrom, hx, if_false]
      rcases h with h | ⟨h1, h2⟩
      · left; exact h
      · right
        constructor
        · refine le_trans ?_ h1
          push_cast
          omega
        · refine lt_of_lt_of_le h2 ?_
          simp only [List.length_cons]
          push_cast
          omega

/-- `find` returns `-1` or an in-bounds index. -/
theorem find_cases (array : List Int) (searchFor : Int) :
    find array searchFor = -1 ∨
      (0 ≤ find array searchFor ∧ find array searchFor < (array.length : Int)) := by
  have h := findFrom_cases searchFor array 0
  simpa [find] using h

/-- Extending never breaks the `sequenceLen = allocated length` invariant
(the new buffer is allocated with exactly `sequenceLen + 1` cells). -/
theorem extendSequence_inv (s : SimonState) (num : Int) :
    (extendSequence s num).sequenceLen = (extendSequence s num).sequence.length := by
  simp [extendSequence]

/-- Under the length invariant, extending is exactly appending. -/
theorem extendSequence_eq (s : SimonState) (num : Int)
    (hinv : s.sequenceLen = s.sequence.length) :
    (extendSequence s num).sequence = s.sequence ++ [num] ∧
      (extendSequence s num).sequenceLen = s.sequenceLen + 1 := by
  refine ⟨?_, rfl⟩
  show (List.range s.sequenceLen).map (fun i => s.sequence.getD i 0) ++ [num]
      = s.sequence ++ [num]
  rw [hinv, range_map_getD]

/-- If every remaining element matches, the replay loop returns
`(true, sequenceLen)`. -/
theorem replayLoop_all_match (sequence : List Int) (n : Nat) (inputs : Nat → Int)
    (i : Nat) (hle : i ≤ n)
    (h : ∀ j, i ≤ j → j < n → inputs j = sequence.getD j 0) :
    replayLoop sequence n inputs i = (true, n) := by
  have main : ∀ k i, n - i = k → i ≤ n →
      (∀ j, i ≤ j → j < n → inputs j = sequence.getD j 0) →
      replayLoop sequence n inputs i = (true, n) := by
    intro k
    induction k with
    | zero =>
      intro i hk hle _
      have hin : i = n := by omega
      rw [replayLoop, dif_neg (by omega)]
      rw [hin]
    | succ k ih =>
      intro i hk hle h
      have hi : i < n := by omega
      have hmatch : inputs i = sequence.getD i 0 := h i le_rfl hi
      rw [replayLoop, dif_pos hi, if_neg (not_not_intro hmatch)]
      exact ih (i + 1) (by omega) (by omega) (fun j hj1 hj2 => h j (by omega) hj2)
  exact main (n - i) i rfl hle h

/-- If the first mismatch at or beyond the cursor is at index `m`, the
replay loop returns `(false, m + 1)`: it consumes inputs `i .. m` and no
more. -/
theorem replayLoop_first_mismatch (sequence : List Int) (n : Nat) (inputs : Nat → Int)
    (i m : Nat) (him : i ≤ m) (hm : m < n)
    (hmatch : ∀ j, i ≤ j → j < m → inputs j = sequence.getD j 0)
    (hmis : inputs m ≠ sequence.getD m 0) :
    replayLoop sequence n inputs i = (false, m + 1) := by
  have main : ∀ k i, m - i = k → i ≤ m →
      (∀ j, i ≤ j → j < m → inputs j = sequence.getD j 0) →
      replayLoop sequence n inputs i = (false, m + 1) := by
    intro k
    induction k with
    | zero =>
      intro i hk hle _
      have him' : i = m := by omega
      subst him'
      rw [replayLoop, dif_pos (by omega), if_pos hmis]
    | succ k ih =>
      intro i hk hle h
      have hi : i < m := by omega
      have hmatch' : inputs i = sequence.getD i 0 := h i le_rfl hi
      rw [replayLoop, dif_pos (by omega), if_neg (not_not_intro hmatch')]
      exact ih (i + 1) (by omega) (by omega) (fun j hj1 hj2 => h j (by omega) hj2)
  exact main (m - i) i rfl him hmatch

/-- `awaitButtonRelease` returns the first tick at or after `t` whose
poll reads `-1`. -/
theorem awaitButtonRelease_spec (poll : Nat → Int) (t : Nat)
    (h : ∃ d, poll (t + d) = -1) :
    t ≤ awaitButtonRelease poll t h ∧ poll (awaitButtonRelease poll t h) = -1 ∧
      ∀ u, t ≤ u → u < awaitButtonRelease poll t h → poll u ≠ -1 := by
  unfold awaitButtonRelease
  refine ⟨Nat.le_add_right _ _, Nat.find_spec h, ?_⟩
  intro u hu1 hu2
  have hlt : u - t < Nat.find h := by omega
  have hmin := Nat.find_min h hlt
  have ht : t + (u - t) = u := by omega
  rw [ht] at hmin
  exact hmin

/-- `awaitButtonPress` returns the first tick at or after `t` whose poll
reads a button. -/
theorem awaitButtonPress_spec (poll : Nat → Int) (t : Nat)
    (h : ∃ d, poll (t + d) ≠ -1) :
    t ≤ awaitButtonPress poll t h ∧ poll (awaitButtonPress poll t h) ≠ -1 ∧
      ∀ u, t ≤ u → u < awaitButtonPress poll t h → poll u = -1 := by
  unfold awaitButtonPress
  refine ⟨Nat.le_add_right _ _, Nat.find_spec h, ?_⟩
  intro u hu1 hu2
  have hlt : u - t < Nat.find h := by omega
  have hmin := Nat.find_min h hlt
  have ht : t + (u - t) = u := by omega
  rw [ht] at hmin
  exact not_not.mp hmin

/-- `extendSequence` adds exactly one to the recorded length. -/
theorem extendSequence_len (s : SimonState) (num : Int) :
    (extendSequence s num).sequenceLen = s.sequenceLen + 1 := rfl

/-- The recorded length after `k` completed levels. -/
theorem stateAfterLevels_len (init : SimonState) (raws : Nat → Nat) (k : Nat) :
    (stateAfterLevels init raws k).sequenceLen = init.sequenceLen + k := by
  induction k with
  | zero => rfl
  | succ k ih =>
    show (extendSequence _ _).sequenceLen = _
    rw [extendSequence_len, ih]
    omega

/-- The length invariant propagates through the level loop. -/
theorem stateAfterLevels_inv (init : SimonState) (raws : Nat → Nat)
    (hinv : init.sequenceLen = init.sequence.length) (k : Nat) :
    (stateAfterLevels init raws k).sequenceLen
      = (stateAfterLevels init raws k).sequence.length := by
  cases k with
  | zero => exact hinv
  | succ k => exact extendSequence_inv _ _

/-- One completed level appends exactly the one fresh random element. -/
theorem stateAfterLevels_step (init : SimonState) (raws : Nat → Nat)
    (hinv : init.sequenceLen = init.sequence.length) (k : Nat) :
    (stateAfterLevels init raws (k + 1)).sequence
      = (stateAfterLevels init raws k).sequence ++ [arduinoRandom 0 NUM_LEDS (raws k)] := by
  exact (extendSequence_eq _ _ (stateAfterLevels_inv init raws hinv k)).1

/-- The level loop exits at the first failed level, without extending. -/
theorem gameLoopFinal_exit (init : SimonState) (raws : Nat → Nat)
    (completes : Nat → Bool) (hfail : ∃ j, completes j = false) (k : Nat)
    (hk : completes k = false) (hmin : ∀ j, j < k → completes j = true) :
    gameLoopFinal init raws completes hfail = stateAfterLevels init raws k := by
  unfold gameLoopFinal
  congr 1
  rw [Nat.find_eq_iff]
  refine ⟨hk, fun m hm => ?_⟩
  simp [hmin m hm]

/-- Under the length invariant, `playSequence` emits one event per
sequence element, in order, all with the given timing. -/
theorem playSequence_eq (s : SimonState) (onTime delayTime : Int)
    (hinv : s.sequenceLen = s.sequence.length) :
    playSequence s onTime delayTime
      = s.sequence.map (fun x => (x, onTime, delayTime)) := by
  unfold playSequence
  rw [hinv]
  conv_rhs => rw [← range_map_getD s.sequence]
  rw [List.map_map]
  rfl

/-! ### Claim theorems -/

/-- Claim C1: level replay is exact on the shared part.  For the current
sequence of recorded length `n` and any gesture stream: if all `n`
gestures match the corresponding sequence elements, the replay returns
`true` having consumed `n` gestures; if `m` is the first index at which
the gestures deviate, the replay returns `false` having consumed exactly
`m + 1` gestures, and the result is the same for any gesture stream that
agrees on those `m + 1` gestures (no later gesture is awaited). -/
theorem C1_level_replay_exact (s : SimonState) (inputs : Nat → Int) :
    ((∀ j, j < s.sequenceLen → inputs j = s.sequence.getD j 0) →
        playLevelReplay s inputs = (true, s.sequenceLen)) ∧
      ∀ m, m < s.sequenceLen →
        (∀ j, j < m → inputs j = s.sequence.getD j 0) →
        inputs m ≠ s.sequence.getD m 0 →
        playLevelReplay s inputs = (false, m + 1) ∧
          ∀ inputs2, (∀ j, j ≤ m → inputs2 j = inputs j) →
            playLevelReplay s inputs2 = (false, m + 1) := by
  unfold playLevelReplay
  constructor
  · intro h
    exact replayLoop_all_match _ _ _ 0 (Nat.zero_le _) (fun j _ hj => h j hj)
  · intro m hm hmatch hmis
    constructor
    · exact replayLoop_first_mismatch _ _ _ 0 m (Nat.zero_le _) hm
        (fun j _ hj => hmatch j hj) hmis
    · intro inputs2 hagree
      apply replayLoop_first_mismatch _ _ _ 0 m (Nat.zero_le _) hm
      · intro j _ hj
        rw [hagree j (by omega)]
        exact hmatch j hj
      · rw [hagree m le_rfl]
        exact hmis

/-- Witness for C1: with sequence `[0, 1, 2]` and gestures `0, 1, 9`,
the replay fails after consuming exactly 3 gestures. -/
theorem C1_witness :
    playLevelReplay ⟨[0, 1, 2], 3⟩ inputsW = (false, 3) :=
  ((C1_level_replay_exact ⟨[0, 1, 2], 3⟩ inputsW).2 2 (by decide)
    (by decide) (by decide)).1

/-- Claim C2: extending a sequence whose recorded length matches its
allocated length appends exactly one element drawn by
`random(0, controlCount)`: the result is the old sequence followed by the
new element (prior elements preserved in order), its length grows by one,
and the appended element lies in `[0, controlCount)`. -/
theorem C2_extendSequence_appends (s : SimonState) (controlCount : Int) (raw : Nat)
    (hinv : s.sequenceLen = s.sequence.length) (hc : 0 < controlCount) :
    (extendSequence s (arduinoRandom 0 controlCount raw)).sequence
        = s.sequence ++ [arduinoRandom 0 controlCount raw] ∧
      (extendSequence s (arduinoRandom 0 controlCount raw)).sequence.length
        = s.sequence.length + 1 ∧
      (extendSequence s (arduinoRandom 0 controlCount raw)).sequenceLen
        = s.sequenceLen + 1 ∧
      0 ≤ arduinoRandom 0 controlCount raw ∧
      arduinoRandom 0 controlCount raw < controlCount := by
  obtain ⟨hseq, hlen⟩ := extendSequence_eq s (arduinoRandom 0 controlCount raw) hinv
  obtain ⟨hlo, hhi⟩ := arduinoRandom_bounds 0 controlCount raw hc
  refine ⟨hseq, ?_, hlen, hlo, hhi⟩
  rw [hseq]
  simp

/-- Witness for C2: extending `[1, 2]` with a draw from `[0, 4)`. -/
theorem C2_witness :
    (extendSequence ⟨[1, 2], 2⟩ (arduinoRandom 0 4 7)).sequence
        = [1, 2] ++ [arduinoRandom 0 4 7] ∧
      0 ≤ arduinoRandom 0 4 7 ∧ arduinoRandom 0 4 7 < 4 := by
  have h := C2_extendSequence_appends ⟨[1, 2], 2⟩ 4 7 rfl (by decide)
  exact ⟨h.1, h.2.2.2⟩

/-- Claim C3: `generateSequence(length, controlCount)` returns exactly
`length` elements, each in `[0, controlCount)`, for any entropy stream,
whenever `controlCount > 0`. -/
theorem C3_generateSequence_spec (length : Nat) (controlCount : Int)
    (raws : Nat → Nat) (hc : 0 < controlCount) :
    (generateSequence length controlCount raws).length = length ∧
      ∀ x ∈ generateSequence length controlCount raws, 0 ≤ x ∧ x < controlCount := by
  constructor
  · simp [generateSequence]
  · intro x hx
    simp only [generateSequence, List.mem_map, List.mem_range] at hx
    obtain ⟨i, _, rfl⟩ := hx
    exact arduinoRandom_bounds 0 controlCount (raws i) hc

/-- Witness for C3: a generated sequence of length 3 over 4 controls. -/
theorem C3_witness :
    (generateSequence 3 4 (fun k => k)).length = 3 ∧
      ∀ x ∈ generateSequence 3 4 (fun k => k), 0 ≤ x ∧ x < 4 :=
  C3_generateSequence_spec 3 4 (fun k => k) (by decide)

/-- Claim C4: in the level loop of `playGame`, every completed level
appends exactly one element to the sequence before the next level begins
(so the recorded length after `j` completed levels is the initial length
plus `j`), and at the first level whose replay fails the loop exits with
the state of that level — the sequence is not extended after the
failure. -/
theorem C4_level_loop (init : SimonState) (raws : Nat → Nat)
    (completes : Nat → Bool) (hfail : ∃ j, completes j = false) (k : Nat)
    (hinv : init.sequenceLen = init.sequence.length)
    (hk : completes k = false) (hmin : ∀ j, j < k → completes j = true) :
    (∀ j, (stateAfterLevels init raws (j + 1)).sequence
        = (stateAfterLevels init raws j).sequence
            ++ [arduinoRandom 0 NUM_LEDS (raws j)]) ∧
      (∀ j, (stateAfterLevels init raws j).sequenceLen = init.sequenceLen + j) ∧
      gameLoopFinal init raws completes hfail = stateAfterLevels init raws k := by
  refine ⟨fun j => stateAfterLevels_step init raws hinv j,
    fun j => stateAfterLevels_len init raws j,
    gameLoopFinal_exit init raws completes hfail k hk hmin⟩

/-- Witness for C4: starting from sequence `[2]`, with levels 0 and 1
completed and level 2 failed, the loop exits with the state after two
extensions, and the first completed level appended one element. -/
theorem C4_witness :
    gameLoopFinal ⟨[2], 1⟩ (fun _ => 1) (fun j => decide (j < 2)) ⟨2, rfl⟩
        = stateAfterLevels ⟨[2], 1⟩ (fun _ => 1) 2 ∧
      (stateAfterLevels ⟨[2], 1⟩ (fun _ => 1) 1).sequence
        = (stateAfterLevels ⟨[2], 1⟩ (fun _ => 1) 0).sequence
            ++ [arduinoRandom 0 NUM_LEDS 1] ∧
      (stateAfterLevels ⟨[2], 1⟩ (fun _ => 1) 2).sequenceLen = 1 + 2 := by
  have h := C4_level_loop ⟨[2], 1⟩ (fun _ => 1) (fun j => decide (j < 2)) ⟨2, rfl⟩ 2
    rfl rfl (by decide)
  exact ⟨h.2.2, h.1 0, h.2.1 2⟩

/-- Claim C5: difficulty selection maps control 0 to speed 1, control 1
to speed 5, control 2 to speed 10, and control 3 (auto) to a random draw
from `[1, 11)`, i.e. `[1, 10]`; for every control in `[0, 4)` the
committed speed lies in `[1, 10]`. -/
theorem C5_selectDifficulty (buttonPressed : Nat) (raw : Nat)
    (hb : buttonPressed < 4) :
    selectDifficulty 0 raw = 1 ∧ selectDifficulty 1 raw = 5 ∧
      selectDifficulty 2 raw = 10 ∧
      (1 ≤ selectDifficulty 3 raw ∧ selectDifficulty 3 raw ≤ 10) ∧
      1 ≤ selectDifficulty buttonPressed raw ∧
      selectDifficulty buttonPressed raw ≤ 10 := by
  have hauto := arduinoRandom_bounds 1 11 raw (by decide)
  have e3 : selectDifficulty 3 raw = arduinoRandom 1 11 raw := rfl
  have h3 : 1 ≤ selectDifficulty 3 raw ∧ selectDifficulty 3 raw ≤ 10 := by
    rw [e3]
    omega
  refine ⟨rfl, rfl, rfl, h3, ?_⟩
  interval_cases buttonPressed
  · rw [show selectDifficulty 0 raw = 1 from rfl]
    decide
  · rw [show selectDifficulty 1 raw = 5 from rfl]
    decide
  · rw [show selectDifficulty 2 raw = 10 from rfl]
    decide
  · exact h3

/-- Witness for C5: the auto control (3) commits a speed in `[1, 10]`,
and the presets evaluate to 1, 5, 10. -/
theorem C5_witness :
    selectDifficulty 0 9 = 1 ∧ selectDifficulty 1 9 = 5 ∧
      selectDifficulty 2 9 = 10 ∧
      1 ≤ selectDifficulty 3 9 ∧ selectDifficulty 3 9 ≤ 10 := by
  have h := C5_selectDifficulty 3 9 (by decide)
  exact ⟨h.1, h.2.1, h.2.2.1, h.2.2.2.1.1, h.2.2.2.1.2⟩

/-- Claim C6: the playback timing functions `1150 - speed * 100` and
`230 - speed * 20` are strictly decreasing in the speed and strictly
positive on every speed in `[1, 10]`. -/
theorem C6_timing_monotone_positive :
    (∀ s1 s2 : Int, 1 ≤ s1 → s1 < s2 → s2 ≤ 10 →
        levelOnTime s2 < levelOnTime s1 ∧ levelGapTime s2 < levelGapTime s1) ∧
      ∀ s : Int, 1 ≤ s → s ≤ 10 → 0 < levelOnTime s ∧ 0 < levelGapTime s := by
  constructor
  · intro s1 s2 h1 h2 h3
    unfold levelOnTime levelGapTime
    omega
  · intro s h1 h2
    unfold levelOnTime levelGapTime
    omega

/-- Witness for C6: timings at speeds 2 and 7. -/
theorem C6_witness :
    (levelOnTime 7 < levelOnTime 2 ∧ levelGapTime 7 < levelGapTime 2) ∧
      0 < levelOnTime 10 ∧ 0 < levelGapTime 10 :=
  ⟨C6_timing_monotone_positive.1 2 7 (by decide) (by decide) (by decide),
    C6_timing_monotone_positive.2 10 (by decide) (by decide)⟩

/-- The concrete poll stream always sees a release eventually. -/
theorem pollW_rel : ∀ t, ∃ d, pollW (t + d) = -1 := by
  intro t
  by_cases h : t % 2 = 0
  · refine ⟨1, ?_⟩
    simp only [pollW]
    rw [if_neg (by omega)]
  · refine ⟨0, ?_⟩
    simp only [pollW]
    rw [if_neg (by omega)]

/-- The concrete poll stream always sees a press eventually. -/
theorem pollW_press : ∀ t, ∃ d, pollW (t + d) ≠ -1 := by
  intro t
  by_cases h : t % 2 = 0
  · refine ⟨0, ?_⟩
    simp only [pollW]
    rw [if_pos (by omega)]
    decide
  · refine ⟨1, ?_⟩
    simp only [pollW]
    rw [if_pos (by omega)]
    decide

/-- Claim C7: `awaitButtonInput` returns the value of the first poll
reading a press at or after its arming tick; that value is a button (not
`-1`); every poll between arming and that press reads released; if a
button was held at invocation, a full release is observed strictly
before the returned press (a held-over press is never the returned
gesture); and for any bound `n`, if no press occurs within `n` ticks of
arming, the press detected is later than that — the gesture is awaited
indefinitely, with no timeout. -/
theorem C7_awaitButtonInput_gesture (poll : Nat → Int) (t0 : Nat)
    (hrel : ∀ t, ∃ d, poll (t + d) = -1)
    (hpress : ∀ t, ∃ d, poll (t + d) ≠ -1) :
    awaitButtonInput poll t0 hrel hpress = poll (pressTime poll t0 hrel hpress) ∧
      poll (pressTime poll t0 hrel hpress) ≠ -1 ∧
      armTime poll t0 hrel ≤ pressTime poll t0 hrel hpress ∧
      (∀ u, armTime poll t0 hrel ≤ u → u < pressTime poll t0 hrel hpress →
        poll u = -1) ∧
      (poll t0 ≠ -1 →
        ∃ r, t0 < r ∧ r < pressTime poll t0 hrel hpress ∧ poll r = -1) ∧
      ∀ n, (∀ d, d ≤ n → poll (armTime poll t0 hrel + d) = -1) →
        armTime poll t0 hrel + n < pressTime poll t0 hrel hpress := by
  obtain ⟨hle, hpr, hminim⟩ :=
    awaitButtonPress_spec poll (armTime poll t0 hrel) (hpress (armTime poll t0 hrel))
  have hpt : pressTime poll t0 hrel hpress
      = awaitButtonPress poll (armTime poll t0 hrel) (hpress (armTime poll t0 hrel)) := rfl
  rw [← hpt] at hle hpr hminim
  refine ⟨rfl, hpr, hle, hminim, ?_, ?_⟩
  · intro hheld
    obtain ⟨hr1, hr2, _⟩ := awaitButtonRelease_spec poll (t0 + 1) (hrel (t0 + 1))
    have harm : armTime poll t0 hrel
        = awaitButtonRelease poll (t0 + 1) (hrel (t0 + 1)) + 1 := by
      unfold armTime
      rw [if_neg hheld]
    refine ⟨awaitButtonRelease poll (t0 + 1) (hrel (t0 + 1)), by omega, by omega, hr2⟩
  · intro n hall
    by_contra hcon
    push_neg at hcon
    have hd : pressTime poll t0 hrel hpress - armTime poll t0 hrel ≤ n := by omega
    have hpoll := hall _ hd
    have harm : armTime poll t0 hrel +
        (pressTime poll t0 hrel hpress - armTime poll t0 hrel)
        = pressTime poll t0 hrel hpress := by omega
    rw [harm] at hpoll
    exact hpr hpoll

/-- Witness for C7: the concrete stream holds button 2 at invocation
tick 0; the gesture returned is the poll value at the detected press,
and a full release is observed strictly before that press. -/
theorem C7_witness :
    pollW 0 ≠ -1 ∧
      awaitButtonInput pollW 0 pollW_rel pollW_press
        = pollW (pressTime pollW 0 pollW_rel pollW_press) ∧
      pollW (pressTime pollW 0 pollW_rel pollW_press) ≠ -1 ∧
      ∃ r, 0 < r ∧ r < pressTime pollW 0 pollW_rel pollW_press ∧ pollW r = -1 := by
  have h := C7_awaitButtonInput_gesture pollW 0 pollW_rel pollW_press
  exact ⟨by decide, h.1, h.2.1, h.2.2.2.2.1 (by decide)⟩

/-- Counterexample to claim C8 as stated: the intro flourish does have 3
flashes, but its tones are not pairwise distinct — `GAME_START_TONES`
repeats the value 440. -/
theorem C8_counterexample :
    (LEDLightShow GAME_START_TONES GAME_START_FLASHES).length = 3 ∧
      ¬ (LEDLightShow GAME_START_TONES GAME_START_FLASHES).Nodup := by
  decide

/-- Claim C8 (amended): the intro flourish consists of exactly 3
flashes whose tones are `440, 440, 660` in order; the first two flashes
share the tone 440, so the tones are not all distinct. -/
theorem C8_intro_flourish :
    LEDLightShow GAME_START_TONES GAME_START_FLASHES = [440, 440, 660] ∧
      (LEDLightShow GAME_START_TONES GAME_START_FLASHES).length = 3 ∧
      (LEDLightShow GAME_START_TONES GAME_START_FLASHES).getD 0 0
        = (LEDLightShow GAME_START_TONES GAME_START_FLASHES).getD 1 0 := by
  decide

/-- Claim C9: the game-over screen plays the 4-flash flourish with the
strictly descending tones `GAME_OVER_TONES`, then replays the full final
sequence exactly once — one event per element, in order — with the fixed
reveal timing `(1000, 250)`; the whole trace is identical for any two
round speeds. -/
theorem C9_endGame_reveal (s : SimonState) (speed1 speed2 : Int)
    (hinv : s.sequenceLen = s.sequence.length) :
    endGame s speed1 = endGame s speed2 ∧
      (endGame s speed1).1 = GAME_OVER_TONES ∧
      (endGame s speed1).1.length = GAME_OVER_FLASHES ∧
      List.Chain' (fun a b => b < a) (endGame s speed1).1 ∧
      (endGame s speed1).2 = s.sequence.map (fun x => (x, 1000, 250)) := by
  have e1 : (endGame s speed1).1 = LEDLightShow GAME_OVER_TONES GAME_OVER_FLASHES := rfl
  have e2 : LEDLightShow GAME_OVER_TONES GAME_OVER_FLASHES = [117, 110, 104, 98] := by
    decide
  refine ⟨rfl, ?_, ?_, ?_, ?_⟩
  · rw [e1, e2]
    decide
  · rw [e1, e2]
    decide
  · rw [e1, e2]
    norm_num [List.chain'_cons]
  · show playSequence s 1000 250 = _
    exact playSequence_eq s 1000 250 hinv

/-- Witness for C9: the reveal of the final sequence `[0, 1]` is the
same at speed 3 and speed 9, and plays each element once with the fixed
timing. -/
theorem C9_witness :
    endGame ⟨[0, 1], 2⟩ 3 = endGame ⟨[0, 1], 2⟩ 9 ∧
      (endGame ⟨[0, 1], 2⟩ 3).2
        = ([0, 1] : List Int).map (fun x => (x, (1000 : Int), (250 : Int))) := by
  have h := C9_endGame_reveal ⟨[0, 1], 2⟩ 3 9 rfl
  exact ⟨h.1, h.2.2.2.2⟩

/-- Claim C10: every array access of the core is in bounds.  `find`
returns `-1` or an index inside the array; `getButtonPressed` returns
`-1` or a button index in `[0, 4)`; `awaitButtonInput` over polls decoded
by `getButtonPressed` returns a value in `[0, 4)`; the
`GAME_SPEEDS[buttonPressed]` access only happens with `buttonPressed` in
`{0, 1, 2}`, all inside the table; under the `sequenceLen` invariant
every index below `sequenceLen` is inside the sequence buffer; and the
invariant holds after `generateSequence` and is preserved by
`extendSequence`. -/
theorem C10_array_accesses_in_bounds :
    (∀ array searchFor, find array searchFor = -1 ∨
        (0 ≤ find array searchFor ∧ find array searchFor < (array.length : Int))) ∧
      (∀ input, getButtonPressed input = -1 ∨
        (0 ≤ getButtonPressed input ∧ getButtonPressed input < 4)) ∧
      (∀ analog : Nat → Int, ∀ t0 : Nat,
        ∀ hrel : ∀ t, ∃ d, getButtonPressed (analog (t + d)) = -1,
        ∀ hpress : ∀ t, ∃ d, getButtonPressed (analog (t + d)) ≠ -1,
        0 ≤ awaitButtonInput (fun t => getButtonPressed (analog t)) t0 hrel hpress ∧
          awaitButtonInput (fun t => getButtonPressed (analog t)) t0 hrel hpress < 4) ∧
      (∀ b : Nat, b < 4 → b ≠ 3 → b < GAME_SPEEDS.length) ∧
      (∀ s : SimonState, s.sequenceLen = s.sequence.length →
        ∀ i, i < s.sequenceLen → i < s.sequence.length) ∧
      (∀ len : Nat, ∀ c : Int, ∀ raws : Nat → Nat,
        (generateSequence len c raws).length = len) ∧
      ∀ s : SimonState, ∀ num : Int,
        (extendSequence s num).sequenceLen = (extendSequence s num).sequence.length := by
  have hbutton : ∀ input, getButtonPressed input = -1 ∨
      (0 ≤ getButtonPressed input ∧ getButtonPressed input < 4) := by
    intro input
    rcases find_cases BUTTON_ANALOG_VALS input with hc | ⟨h1, h2⟩
    · left
      exact hc
    · right
      exact ⟨h1, lt_of_lt_of_eq h2 (by decide)⟩
  refine ⟨fun array searchFor => find_cases array searchFor, hbutton, ?_, ?_, ?_, ?_, ?_⟩
  · intro analog t0 hrel hpress
    have hpr := (awaitButtonPress_spec (fun t => getButtonPressed (analog t))
      (armTime (fun t => getButtonPressed (analog t)) t0 hrel)
      (hpress (armTime (fun t => getButtonPressed (analog t)) t0 hrel))).2.1
    rcases hbutton (analog (pressTime (fun t => getButtonPressed (analog t))
        t0 hrel hpress)) with hc | ⟨h1, h2⟩
    · exact absurd hc hpr
    · exact ⟨h1, h2⟩
  · intro b hb hb3
    show b < 3
    omega
  · intro s hinv i hi
    omega
  · intro len c raws
    simp [generateSequence]
  · intro s num
    exact extendSequence_inv s num

/-- Witness for C10: the analog value 682 decodes in range, the preset
table access at control 2 is in bounds, and extending `[3]` keeps the
length invariant. -/
theorem C10_witness :
    (getButtonPressed 682 = -1 ∨
        (0 ≤ getButtonPressed 682 ∧ getButtonPressed 682 < 4)) ∧
      2 < GAME_SPEEDS.length ∧
      (extendSequence ⟨[3], 1⟩ 0).sequenceLen
        = (extendSequence ⟨[3], 1⟩ 0).sequence.length := by
  have h := C10_array_accesses_in_bounds
  exact ⟨h.2.1 682, h.2.2.2.1 2 (by decide) (by decide), h.2.2.2.2.2.2 ⟨[3], 1⟩ 0⟩

end Simon
